import Mathlib

/-!
Shallow embedding of the `abc_staking` Solana program (`src/lib.rs`).

Machine integers are modelled as `Nat` (unsigned u16/u32/u64/u128) and `Int`
(signed i64).  Every `checked_*` operation of the source becomes an explicit
bound test returning `Except`; the `as u64` truncating cast becomes `% U64`;
the unchecked `-` on unsigned values (which wraps in release builds) becomes
an explicit wrapping subtraction; `saturating_add`/`saturating_sub` on i64
clamp into the i64 range.  Pubkeys are opaque identities modelled as `Nat`.

Each instruction returns `Except Err (St k)` together with the list of
Transfer Gateway invocations it issued.  An `Except.error` result means the
Solana runtime aborts the transaction and no account mutation persists
(`persist` below); this transactional rollback is part of the execution
environment the program runs in.
-/

namespace AbcStaking

/-- `SECONDS_PER_YEAR` constant of the source (365 days). -/
def SECONDS_PER_YEAR : Nat := 31536000

/-- `FP_SHIFT`: number of fractional bits of the Q64.64 fixed point. -/
def FP_SHIFT : Nat := 64

/-- `FP_ONE = 1u128 << FP_SHIFT`, the fixed-point scale. -/
def FP_ONE : Nat := 2 ^ FP_SHIFT

/-- Modulus of the `u64` type. -/
def U64 : Nat := 2 ^ 64

/-- Modulus of the `u128` type. -/
def U128 : Nat := 2 ^ 128

/-- Largest `i64` value. -/
def I64_MAX : Int := 2 ^ 63 - 1

/-- Smallest `i64` value. -/
def I64_MIN : Int := -(2 ^ 63)

/-- The program's `ErrorCode` enum. -/
inductive ErrorCode where
  | zeroAmount
  | lockup
  | invalidVault
  | unauthorized
  | invalidParams
  | overflow
  | underflow
  | insufficientStake
  deriving DecidableEq, Repr

/-- Result error: either a program `ErrorCode`, or a failure reported by the
Transfer Gateway (the SPL token program CPI). -/
inductive Err where
  | program (e : ErrorCode)
  | transferFailed
  deriving DecidableEq, Repr

/-- Clamp an unbounded integer into the i64 range (saturating semantics). -/
def clampI64 (x : Int) : Int := max I64_MIN (min I64_MAX x)

/-- `i64::saturating_add`. -/
def satAddI64 (a b : Int) : Int := clampI64 (a + b)

/-- `i64::saturating_sub`. -/
def satSubI64 (a b : Int) : Int := clampI64 (a - b)

/-- `u64::checked_add(..).ok_or(ErrorCode::Overflow)`. -/
def checkedAddU64 (a b : Nat) : Except Err Nat :=
  if a + b < U64 then .ok (a + b) else .error (.program .overflow)

/-- `u128::checked_add(..).ok_or(ErrorCode::Overflow)`. -/
def checkedAddU128 (a b : Nat) : Except Err Nat :=
  if a + b < U128 then .ok (a + b) else .error (.program .overflow)

/-- `u128::checked_mul(..).ok_or(ErrorCode::Overflow)`. -/
def checkedMulU128 (a b : Nat) : Except Err Nat :=
  if a * b < U128 then .ok (a * b) else .error (.program .overflow)

/-- `u128::checked_sub(..).ok_or(ErrorCode::Underflow)`. -/
def checkedSubU128 (a b : Nat) : Except Err Nat :=
  if b ≤ a then .ok (a - b) else .error (.program .underflow)

/-- Unchecked `u64` subtraction (wrapping, release-build semantics). -/
def wrapSubU64 (a b : Nat) : Nat := (a + U64 - b) % U64

/-- Unchecked `u128` subtraction (wrapping, release-build semantics). -/
def wrapSubU128 (a b : Nat) : Nat := (a + U128 - b) % U128

/-- The `Pool` account.  Field order and names follow the source; `Pubkey`
fields are opaque `Nat` identities. -/
structure Pool where
  admin : Nat
  mint : Nat
  vault : Nat
  bump : Nat
  apy_bps : Nat
  lockup_seconds : Nat
  acc_reward_per_token_fp : Nat
  rewards_owed_global_fp : Nat
  last_update_ts : Int
  reward_rate_fp : Nat
  total_staked : Nat
  time_offset : Int
  deriving DecidableEq, Repr

/-- The `UserStake` account. -/
structure UserStake where
  owner : Nat
  pool : Nat
  amount_staked : Nat
  rewards_owed_fp : Nat
  user_entry_acc_rpt_fp : Nat
  stake_ts : Int
  deriving DecidableEq, Repr

/-- `now_ts(pool)`: the clock's `unix_timestamp` saturatingly shifted by the
pool's test offset.  `clock` is the ambient `Clock::get()` value. -/
def now_ts (clock : Int) (p : Pool) : Int := satAddI64 clock p.time_offset

/-- `update_pool_rewards` (the spec's `settle_pool`). -/
def update_pool_rewards (clock : Int) (p : Pool) : Except Err Pool :=
  let now := now_ts clock p
  let dt := satSubI64 now p.last_update_ts
  if dt ≤ 0 then .ok p
  else if p.total_staked = 0 then .ok { p with last_update_ts := now }
  else
    match checkedMulU128 dt.toNat p.reward_rate_fp with
    | .error e => .error e
    | .ok x =>
      match checkedMulU128 x p.total_staked with
      | .error e => .error e
      | .ok added_fp =>
        let incr := added_fp / p.total_staked
        match checkedAddU128 p.acc_reward_per_token_fp incr with
        | .error e => .error e
        | .ok acc => .ok { p with acc_reward_per_token_fp := acc, last_update_ts := now }

/-- `update_user_rewards` (the spec's `settle_participant`). -/
def update_user_rewards (u : UserStake) (p : Pool) : Except Err UserStake :=
  match checkedSubU128 p.acc_reward_per_token_fp u.user_entry_acc_rpt_fp with
  | .error e => .error e
  | .ok delta =>
    match checkedMulU128 u.amount_staked delta with
    | .error e => .error e
    | .ok pending =>
      match checkedAddU128 u.rewards_owed_fp pending with
      | .error e => .error e
      | .ok owed =>
        .ok { u with rewards_owed_fp := owed,
                     user_entry_acc_rpt_fp := p.acc_reward_per_token_fp }

/-- Direction of a Transfer Gateway invocation. -/
inductive Dir where
  | toVault
  | toUser
  deriving DecidableEq, Repr

/-- One Transfer Gateway (SPL `token::transfer`) invocation. -/
structure Xfer where
  dir : Dir
  amount : Nat
  deriving DecidableEq, Repr

/-- Total amount carried by a list of transfers. -/
def logAmount (log : List Xfer) : Nat := (log.map Xfer.amount).sum

/-- Global state for one pool with a fixed universe of `k` participants:
the pool account plus each participant's `UserStake` account (Anchor's
`init_if_needed` creates the account zero-filled, so an untouched
participant is represented by the all-zero record). -/
structure St (k : Nat) where
  pool : Pool
  users : Fin k → UserStake

variable {k : Nat}

/-- The `stake` instruction.  `xferOk` tells whether the user→vault token
transfer succeeds.  The second component lists the gateway invocations made
(in source order: the transfer happens before the balance increments). -/
def stake (xferOk : Bool) (clock : Int) (i : Fin k) (amount : Nat) (s : St k) :
    Except Err (St k) × List Xfer :=
  if amount = 0 then (.error (.program .zeroAmount), [])
  else
    match update_pool_rewards clock s.pool with
    | .error e => (.error e, [])
    | .ok p1 =>
      match update_user_rewards (s.users i) p1 with
      | .error e => (.error e, [])
      | .ok u1 =>
        if xferOk then
          match checkedAddU64 u1.amount_staked amount with
          | .error e => (.error e, [⟨.toVault, amount⟩])
          | .ok a =>
            match checkedAddU64 p1.total_staked amount with
            | .error e => (.error e, [⟨.toVault, amount⟩])
            | .ok t =>
              (.ok ⟨{ p1 with total_staked := t },
                    Function.update s.users i
                      { u1 with
                        amount_staked := a,
                        stake_ts := if u1.amount_staked = 0
                                    then now_ts clock p1
                                    else u1.stake_ts }⟩,
               [⟨.toVault, amount⟩])
        else (.error .transferFailed, [⟨.toVault, amount⟩])

/-- `let tokens_owed: u64 = (owed_fp / FP_ONE) as u64`: floor division by the
fixed-point scale followed by the truncating u64 cast. -/
def tokensOwedOf (owed_fp : Nat) : Nat := owed_fp / FP_ONE % U64

/-- The `claim` instruction.  The subtraction `owed_fp - paid_back_fp` is the
source's unchecked u128 subtraction. -/
def claim (xferOk : Bool) (clock : Int) (i : Fin k) (s : St k) :
    Except Err (St k) × List Xfer :=
  match update_pool_rewards clock s.pool with
  | .error e => (.error e, [])
  | .ok p1 =>
    match update_user_rewards (s.users i) p1 with
    | .error e => (.error e, [])
    | .ok u1 =>
      let owed_fp := u1.rewards_owed_fp
      let tokens_owed := tokensOwedOf owed_fp
      if 0 < tokens_owed then
        let paid_back_fp := tokens_owed * FP_ONE
        let u2 := { u1 with rewards_owed_fp := wrapSubU128 owed_fp paid_back_fp }
        if xferOk then
          (.ok ⟨p1, Function.update s.users i u2⟩, [⟨.toUser, tokens_owed⟩])
        else (.error .transferFailed, [⟨.toUser, tokens_owed⟩])
      else
        (.ok ⟨p1, Function.update s.users i u1⟩, [])

/-- The `unstake` instruction.  The lockup gate runs before settlement; the
pool-side balance decrement is the source's unchecked u64 subtraction. -/
def unstake (xferOk : Bool) (clock : Int) (i : Fin k) (amount : Nat) (s : St k) :
    Except Err (St k) × List Xfer :=
  if amount = 0 then (.error (.program .zeroAmount), [])
  else
    if 0 < s.pool.lockup_seconds ∧
        satSubI64 (now_ts clock s.pool) (s.users i).stake_ts
          < (s.pool.lockup_seconds : Int) then
      (.error (.program .lockup), [])
    else
      match update_pool_rewards clock s.pool with
      | .error e => (.error e, [])
      | .ok p1 =>
        match update_user_rewards (s.users i) p1 with
        | .error e => (.error e, [])
        | .ok u1 =>
          if u1.amount_staked < amount then
            (.error (.program .insufficientStake), [])
          else
            let u2 := { u1 with amount_staked := u1.amount_staked - amount }
            let p2 := { p1 with total_staked := wrapSubU64 p1.total_staked amount }
            if xferOk then
              (.ok ⟨p2, Function.update s.users i u2⟩, [⟨.toUser, amount⟩])
            else (.error .transferFailed, [⟨.toUser, amount⟩])

/-- The `set_params` instruction (admin only; never touches the gateway). -/
def set_params (caller : Nat) (clock : Int) (apy_bps lockup_seconds : Nat)
    (s : St k) : Except Err (St k) × List Xfer :=
  if caller ≠ s.pool.admin then (.error (.program .unauthorized), [])
  else if 10000 < apy_bps then (.error (.program .invalidParams), [])
  else
    match update_pool_rewards clock s.pool with
    | .error e => (.error e, [])
    | .ok p1 =>
      let rate := apy_bps * FP_ONE / 10000 / SECONDS_PER_YEAR
      (.ok ⟨{ p1 with apy_bps := apy_bps, lockup_seconds := lockup_seconds,
                      reward_rate_fp := rate }, s.users⟩, [])

/-- The `set_time_offset` test helper (admin only, no settlement). -/
def set_time_offset (caller : Nat) (offset_seconds : Int) (s : St k) :
    Except Err (St k) × List Xfer :=
  if caller ≠ s.pool.admin then (.error (.program .unauthorized), [])
  else (.ok ⟨{ s.pool with time_offset := offset_seconds }, s.users⟩, [])

/-- The `initialize_pool` instruction, producing the fresh `Pool` account.
`vaultMintOk`/`vaultOwnerOk` model the two `require_keys_eq!` vault sanity
checks.  When `now_ts` runs inside the body, `time_offset` still holds the
zero Anchor wrote at account creation. -/
def initialize_pool (clock : Int) (admin mint vault bump : Nat)
    (apy_bps lockup_seconds : Nat) (vaultMintOk vaultOwnerOk : Bool) :
    Except Err Pool :=
  if 10000 < apy_bps then .error (.program .invalidParams)
  else
    let p : Pool :=
      { admin := admin, mint := mint, vault := vault, bump := bump
        apy_bps := apy_bps, lockup_seconds := lockup_seconds
        acc_reward_per_token_fp := 0, rewards_owed_global_fp := 0
        total_staked := 0
        last_update_ts := satAddI64 clock 0
        reward_rate_fp := apy_bps * FP_ONE / 10000 / SECONDS_PER_YEAR
        time_offset := 0 }
    if vaultMintOk then
      if vaultOwnerOk then .ok p else .error (.program .invalidVault)
    else .error (.program .invalidVault)

/-- State persisted after an instruction: on error the Solana runtime aborts
the transaction, so the pre-state is what remains on chain. -/
def persist (s : St k) : Except Err (St k) → St k
  | .ok s' => s'
  | .error _ => s

/-- All-zero `UserStake` records (the state of Anchor-zeroed fresh accounts). -/
def initUsers (k : Nat) : Fin k → UserStake := fun _ => ⟨0, 0, 0, 0, 0, 0⟩

/-- One persisted execution of any of the five mutating instructions on an
existing pool, with arbitrary caller, clock, participant, amount and
gateway outcome. -/
inductive Step : St k → St k → Prop where
  | ofStake (ok : Bool) (clock : Int) (i : Fin k) (amount : Nat) (s : St k) :
      Step s (persist s (stake ok clock i amount s).1)
  | ofClaim (ok : Bool) (clock : Int) (i : Fin k) (s : St k) :
      Step s (persist s (claim ok clock i s).1)
  | ofUnstake (ok : Bool) (clock : Int) (i : Fin k) (amount : Nat) (s : St k) :
      Step s (persist s (unstake ok clock i amount s).1)
  | ofSetParams (caller : Nat) (clock : Int) (apy lock : Nat) (s : St k) :
      Step s (persist s (set_params caller clock apy lock s).1)
  | ofSetTimeOffset (caller : Nat) (off : Int) (s : St k) :
      Step s (persist s (set_time_offset caller off s).1)

/-- States reachable from a successful `initialize_pool` by any sequence of
instructions. -/
inductive Reachable : St k → Prop where
  | init (clock : Int) (admin mint vault bump apy lock : Nat)
      (vm vo : Bool) (p : Pool) :
      initialize_pool clock admin mint vault bump apy lock vm vo = .ok p →
      Reachable ⟨p, initUsers k⟩
  | step {s s' : St k} : Reachable s → Step s s' → Reachable s'

/-! ### Basic lemmas about the arithmetic helpers -/

theorem checkedAddU64_eq_ok {a b c : Nat} :
    checkedAddU64 a b = .ok c ↔ a + b < U64 ∧ c = a + b := by
  unfold checkedAddU64
  split <;> simp_all [eq_comm]

theorem checkedAddU128_eq_ok {a b c : Nat} :
    checkedAddU128 a b = .ok c ↔ a + b < U128 ∧ c = a + b := by
  unfold checkedAddU128
  split <;> simp_all [eq_comm]

theorem checkedMulU128_eq_ok {a b c : Nat} :
    checkedMulU128 a b = .ok c ↔ a * b < U128 ∧ c = a * b := by
  unfold checkedMulU128
  split <;> simp_all [eq_comm]

theorem checkedSubU128_eq_ok {a b c : Nat} :
    checkedSubU128 a b = .ok c ↔ b ≤ a ∧ c = a - b := by
  unfold checkedSubU128
  split <;> simp_all [eq_comm]

theorem wrapSubU64_of_le {a b : Nat} (hba : b ≤ a) (ha : a < U64) :
    wrapSubU64 a b = a - b := by
  unfold wrapSubU64
  have h1 : a + U64 - b = (a - b) + U64 := by omega
  rw [h1, Nat.add_mod_right, Nat.mod_eq_of_lt (by omega)]

theorem wrapSubU128_of_le {a b : Nat} (hba : b ≤ a) (ha : a < U128) :
    wrapSubU128 a b = a - b := by
  unfold wrapSubU128
  have h1 : a + U128 - b = (a - b) + U128 := by omega
  rw [h1, Nat.add_mod_right, Nat.mod_eq_of_lt (by omega)]

theorem satSubI64_self (a : Int) : satSubI64 a a = 0 := by
  simp [satSubI64, clampI64, I64_MAX, I64_MIN]

/-- Elapsed time as computed inside `update_pool_rewards`. -/
def poolDt (clock : Int) (p : Pool) : Int :=
  satSubI64 (now_ts clock p) p.last_update_ts

/-! ### Characterisation of the settlement functions -/

/-- Success cases of `update_pool_rewards`: clock did not advance, empty
pool, or accumulator advanced by `(dt * rate * total) / total`. -/
theorem upr_ok_cases {clock : Int} {p p' : Pool}
    (h : update_pool_rewards clock p = .ok p') :
    (poolDt clock p ≤ 0 ∧ p' = p)
    ∨ (0 < poolDt clock p ∧ p.total_staked = 0 ∧
        p' = { p with last_update_ts := now_ts clock p })
    ∨ (0 < poolDt clock p ∧ p.total_staked ≠ 0 ∧
        p.acc_reward_per_token_fp +
          (poolDt clock p).toNat * p.reward_rate_fp * p.total_staked
            / p.total_staked < U128 ∧
        p' = { p with
          acc_reward_per_token_fp := p.acc_reward_per_token_fp +
            (poolDt clock p).toNat * p.reward_rate_fp * p.total_staked
              / p.total_staked,
          last_update_ts := now_ts clock p }) := by
  simp only [poolDt]
  rw [update_pool_rewards] at h
  split at h
  next hc =>
    exact Or.inl ⟨hc, by injection h; subst_vars; rfl⟩
  next hc =>
    split at h
    next hz0 =>
      exact Or.inr (Or.inl ⟨not_le.mp hc, hz0, by injection h; subst_vars; rfl⟩)
    next hz0 =>
      refine Or.inr (Or.inr ⟨not_le.mp hc, hz0, ?_⟩)
      rcases hx : checkedMulU128 (satSubI64 (now_ts clock p) p.last_update_ts).toNat
          p.reward_rate_fp with e | x
      · simp only [hx] at h; exact Except.noConfusion h
      simp only [hx] at h
      rcases hy : checkedMulU128 x p.total_staked with e | added
      · simp only [hy] at h; exact Except.noConfusion h
      simp only [hy] at h
      rcases hz : checkedAddU128 p.acc_reward_per_token_fp (added / p.total_staked)
          with e | acc
      · simp only [hz] at h; exact Except.noConfusion h
      simp only [hz] at h
      obtain ⟨_, rfl⟩ := checkedMulU128_eq_ok.mp hx
      obtain ⟨_, rfl⟩ := checkedMulU128_eq_ok.mp hy
      obtain ⟨hlt, rfl⟩ := checkedAddU128_eq_ok.mp hz
      injection h
      subst_vars
      exact ⟨hlt, rfl⟩

/-- `update_pool_rewards` changes only the accumulator (upward) and the
last-update timestamp. -/
theorem upr_ok_fields {clock : Int} {p p' : Pool}
    (h : update_pool_rewards clock p = .ok p') :
    p'.admin = p.admin ∧ p'.mint = p.mint ∧ p'.vault = p.vault ∧
    p'.bump = p.bump ∧ p'.apy_bps = p.apy_bps ∧
    p'.lockup_seconds = p.lockup_seconds ∧
    p'.rewards_owed_global_fp = p.rewards_owed_global_fp ∧
    p'.reward_rate_fp = p.reward_rate_fp ∧
    p'.total_staked = p.total_staked ∧
    p'.time_offset = p.time_offset ∧
    p.acc_reward_per_token_fp ≤ p'.acc_reward_per_token_fp := by
  rcases upr_ok_cases h with ⟨_, rfl⟩ | ⟨_, _, rfl⟩ | ⟨_, _, _, rfl⟩ <;>
    simp

/-- Success characterisation of `update_user_rewards`. -/
theorem uur_ok_fields {u u' : UserStake} {p : Pool}
    (h : update_user_rewards u p = .ok u') :
    u'.owner = u.owner ∧ u'.pool = u.pool ∧
    u'.amount_staked = u.amount_staked ∧ u'.stake_ts = u.stake_ts ∧
    u'.user_entry_acc_rpt_fp = p.acc_reward_per_token_fp ∧
    u.user_entry_acc_rpt_fp ≤ p.acc_reward_per_token_fp ∧
    u'.rewards_owed_fp = u.rewards_owed_fp +
      u.amount_staked *
        (p.acc_reward_per_token_fp - u.user_entry_acc_rpt_fp) ∧
    u'.rewards_owed_fp < U128 := by
  rw [update_user_rewards] at h
  rcases hd : checkedSubU128 p.acc_reward_per_token_fp u.user_entry_acc_rpt_fp
      with e | delta
  · simp only [hd] at h; exact Except.noConfusion h
  simp only [hd] at h
  rcases hp : checkedMulU128 u.amount_staked delta with e | pending
  · simp only [hp] at h; exact Except.noConfusion h
  simp only [hp] at h
  rcases ho : checkedAddU128 u.rewards_owed_fp pending with e | owed
  · simp only [ho] at h; exact Except.noConfusion h
  simp only [ho] at h
  obtain ⟨hle, rfl⟩ := checkedSubU128_eq_ok.mp hd
  obtain ⟨_, rfl⟩ := checkedMulU128_eq_ok.mp hp
  obtain ⟨hlt, rfl⟩ := checkedAddU128_eq_ok.mp ho
  injection h
  subst_vars
  simp [hle, hlt]

/-! ### Characterisation of the instructions -/

theorem stake_eq_ok {xferOk : Bool} {clock : Int} {i : Fin k} {amount : Nat}
    {s s' : St k} {log : List Xfer}
    (h : stake xferOk clock i amount s = (.ok s', log)) :
    ∃ p1 u1, update_pool_rewards clock s.pool = .ok p1 ∧
      update_user_rewards (s.users i) p1 = .ok u1 ∧
      amount ≠ 0 ∧ xferOk = true ∧
      u1.amount_staked + amount < U64 ∧ p1.total_staked + amount < U64 ∧
      s' = ⟨{ p1 with total_staked := p1.total_staked + amount },
            Function.update s.users i
              { u1 with
                amount_staked := u1.amount_staked + amount,
                stake_ts := if u1.amount_staked = 0 then now_ts clock p1
                            else u1.stake_ts }⟩ ∧
      log = [⟨.toVault, amount⟩] := by
  rw [stake] at h
  split at h
  · simp at h
  next ham =>
  rcases hp : update_pool_rewards clock s.pool with e | p1
  · simp only [hp] at h; simp at h
  simp only [hp] at h
  rcases hu : update_user_rewards (s.users i) p1 with e | u1
  · simp only [hu] at h; simp at h
  simp only [hu] at h
  split at h
  next hxf =>
    refine ⟨p1, u1, rfl, hu, ham, hxf, ?_⟩
    rcases ha : checkedAddU64 u1.amount_staked amount with e | a
    · simp [ha] at h
    simp only [ha] at h
    rcases ht : checkedAddU64 p1.total_staked amount with e | t
    · simp [ht] at h
    simp only [ht] at h
    obtain ⟨hab, rfl⟩ := checkedAddU64_eq_ok.mp ha
    obtain ⟨htb, rfl⟩ := checkedAddU64_eq_ok.mp ht
    rw [Prod.mk.injEq] at h
    obtain ⟨h1, rfl⟩ := h
    injection h1 with h1
    subst h1
    exact ⟨hab, htb, rfl, rfl⟩
  next hxf => simp at h

theorem claim_eq_ok {xferOk : Bool} {clock : Int} {i : Fin k}
    {s s' : St k} {log : List Xfer}
    (h : claim xferOk clock i s = (.ok s', log)) :
    ∃ p1 u1, update_pool_rewards clock s.pool = .ok p1 ∧
      update_user_rewards (s.users i) p1 = .ok u1 ∧
      ((0 < tokensOwedOf u1.rewards_owed_fp ∧ xferOk = true ∧
        s' = ⟨p1, Function.update s.users i
              { u1 with
                  rewards_owed_fp := wrapSubU128 u1.rewards_owed_fp
                                       (tokensOwedOf u1.rewards_owed_fp * FP_ONE) }⟩ ∧
        log = [⟨.toUser, tokensOwedOf u1.rewards_owed_fp⟩])
      ∨ (tokensOwedOf u1.rewards_owed_fp = 0 ∧
        s' = ⟨p1, Function.update s.users i u1⟩ ∧ log = [])) := by
  rw [claim] at h
  rcases hp : update_pool_rewards clock s.pool with e | p1
  · simp only [hp] at h; simp at h
  simp only [hp] at h
  rcases hu : update_user_rewards (s.users i) p1 with e | u1
  · simp only [hu] at h; simp at h
  simp only [hu] at h
  refine ⟨p1, u1, rfl, hu, ?_⟩
  split at h
  next hpos =>
    split at h
    next hxf =>
      rw [Prod.mk.injEq] at h
      obtain ⟨h1, rfl⟩ := h
      injection h1 with h1
      subst h1
      exact Or.inl ⟨hpos, hxf, rfl, rfl⟩
    next hxf => simp at h
  next hpos =>
    rw [Prod.mk.injEq] at h
    obtain ⟨h1, rfl⟩ := h
    injection h1 with h1
    subst h1
    exact Or.inr ⟨by omega, rfl, rfl⟩

theorem unstake_eq_ok {xferOk : Bool} {clock : Int} {i : Fin k} {amount : Nat}
    {s s' : St k} {log : List Xfer}
    (h : unstake xferOk clock i amount s = (.ok s', log)) :
    ∃ p1 u1, update_pool_rewards clock s.pool = .ok p1 ∧
      update_user_rewards (s.users i) p1 = .ok u1 ∧
      amount ≠ 0 ∧
      ¬(0 < s.pool.lockup_seconds ∧
        satSubI64 (now_ts clock s.pool) (s.users i).stake_ts
          < (s.pool.lockup_seconds : Int)) ∧
      amount ≤ u1.amount_staked ∧ xferOk = true ∧
      s' = ⟨{ p1 with total_staked := wrapSubU64 p1.total_staked amount },
            Function.update s.users i
              { u1 with amount_staked := u1.amount_staked - amount }⟩ ∧
      log = [⟨.toUser, amount⟩] := by
  rw [unstake] at h
  split at h
  · simp at h
  next ham =>
  by_cases hlock : 0 < s.pool.lockup_seconds ∧
      satSubI64 (now_ts clock s.pool) (s.users i).stake_ts
        < (s.pool.lockup_seconds : Int)
  · rw [if_pos hlock] at h; simp at h
  rw [if_neg hlock] at h
  rcases hp : update_pool_rewards clock s.pool with e | p1
  · simp only [hp] at h; simp at h
  simp only [hp] at h
  rcases hu : update_user_rewards (s.users i) p1 with e | u1
  · simp only [hu] at h; simp at h
  simp only [hu] at h
  split at h
  next hins => simp at h
  next hins =>
  split at h
  next hxf =>
    rw [Prod.mk.injEq] at h
    obtain ⟨h1, rfl⟩ := h
    injection h1 with h1
    subst h1
    exact ⟨p1, u1, rfl, hu, ham, hlock, by omega, hxf, rfl, rfl⟩
  next hxf => simp at h

theorem set_params_eq_ok {caller : Nat} {clock : Int} {apy lock : Nat}
    {s s' : St k} {log : List Xfer}
    (h : set_params caller clock apy lock s = (.ok s', log)) :
    caller = s.pool.admin ∧ apy ≤ 10000 ∧
    ∃ p1, update_pool_rewards clock s.pool = .ok p1 ∧
      s' = ⟨{ p1 with
                apy_bps := apy,
                lockup_seconds := lock,
                reward_rate_fp := apy * FP_ONE / 10000 / SECONDS_PER_YEAR },
            s.users⟩ ∧
      log = [] := by
  rw [set_params] at h
  split at h
  · simp at h
  next hcaller =>
  split at h
  · simp at h
  next hapy =>
  rcases hp : update_pool_rewards clock s.pool with e | p1
  · simp only [hp] at h; simp at h
  simp only [hp] at h
  rw [Prod.mk.injEq] at h
  obtain ⟨h1, rfl⟩ := h
  injection h1 with h1
  subst h1
  exact ⟨by omega, by omega, p1, rfl, rfl, rfl⟩

theorem set_time_offset_eq_ok {caller : Nat} {off : Int}
    {s s' : St k} {log : List Xfer}
    (h : set_time_offset caller off s = (.ok s', log)) :
    caller = s.pool.admin ∧
    s' = ⟨{ s.pool with time_offset := off }, s.users⟩ ∧ log = [] := by
  rw [set_time_offset] at h
  split at h
  · simp at h
  next hcaller =>
  rw [Prod.mk.injEq] at h
  obtain ⟨h1, rfl⟩ := h
  injection h1 with h1
  subst h1
  exact ⟨by omega, rfl, rfl⟩

/-! ### Total-staked bookkeeping (claim C1) -/

theorem sum_amount_update (f : Fin k → UserStake) (i : Fin k) (v : UserStake) :
    ∑ j, (Function.update f i v j).amount_staked
      = v.amount_staked + ∑ j in Finset.univ \ {i}, (f j).amount_staked := by
  have hcomp : (fun j => (Function.update f i v j).amount_staked)
      = Function.update (fun j => (f j).amount_staked) i v.amount_staked := by
    funext j
    by_cases hji : j = i
    · subst hji; simp
    · simp [Function.update, hji]
  calc ∑ j, (Function.update f i v j).amount_staked
      = ∑ j, Function.update (fun j => (f j).amount_staked) i v.amount_staked j := by
        rw [hcomp]
    _ = v.amount_staked + ∑ j in Finset.univ \ {i}, (f j).amount_staked :=
        Finset.sum_update_of_mem (Finset.mem_univ i) _ _

theorem sum_amount_split (f : Fin k → UserStake) (i : Fin k) :
    ∑ j, (f j).amount_staked
      = (f i).amount_staked + ∑ j in Finset.univ \ {i}, (f j).amount_staked := by
  have h := sum_amount_update f i (f i)
  rwa [Function.update_eq_self] at h

/-- The inductive invariant: the pool's running total both matches the sum of
the participants' stakes and fits in a u64. -/
def Inv (s : St k) : Prop :=
  s.pool.total_staked = ∑ j, (s.users j).amount_staked ∧
  s.pool.total_staked < U64

theorem initialize_pool_eq_ok {clock : Int} {admin mint vault bump apy lock : Nat}
    {vm vo : Bool} {p : Pool}
    (h : initialize_pool clock admin mint vault bump apy lock vm vo = .ok p) :
    apy ≤ 10000 ∧ vm = true ∧ vo = true ∧
    p = { admin := admin, mint := mint, vault := vault, bump := bump
          apy_bps := apy, lockup_seconds := lock
          acc_reward_per_token_fp := 0, rewards_owed_global_fp := 0
          total_staked := 0
          last_update_ts := satAddI64 clock 0
          reward_rate_fp := apy * FP_ONE / 10000 / SECONDS_PER_YEAR
          time_offset := 0 } := by
  rw [initialize_pool] at h
  split at h
  · simp at h
  next hapy =>
  split at h
  next hvm =>
    split at h
    next hvo =>
      injection h with h
      subst h
      exact ⟨by omega, hvm, hvo, rfl⟩
    next hvo => simp at h
  next hvm => simp at h

theorem inv_step {s s' : St k} (hI : Inv s) (hs : Step s s') : Inv s' := by
  obtain ⟨hsum, hlt⟩ := hI
  cases hs with
  | ofStake ok clock i amount s =>
    rcases hres : stake ok clock i amount s with ⟨r, log⟩
    rcases r with e | s2
    · exact ⟨hsum, hlt⟩
    · dsimp only [persist]
      obtain ⟨p1, u1, hp, hu, -, -, -, htb, rfl, -⟩ := stake_eq_ok hres
      obtain ⟨-, -, -, -, -, -, -, -, hpt, -, -⟩ := upr_ok_fields hp
      obtain ⟨-, -, hua, -, -, -, -, -⟩ := uur_ok_fields hu
      have hupd := sum_amount_update s.users i
        { u1 with
          amount_staked := u1.amount_staked + amount,
          stake_ts := if u1.amount_staked = 0 then now_ts clock p1
                      else u1.stake_ts }
      dsimp only at hupd
      have hsplit := sum_amount_split s.users i
      refine ⟨?_, ?_⟩
      · try dsimp only
        rw [hupd]
        omega
      · try dsimp only
        exact htb
  | ofClaim ok clock i s =>
    rcases hres : claim ok clock i s with ⟨r, log⟩
    rcases r with e | s2
    · exact ⟨hsum, hlt⟩
    · dsimp only [persist]
      obtain ⟨p1, u1, hp, hu, hcase⟩ := claim_eq_ok hres
      obtain ⟨-, -, -, -, -, -, -, -, hpt, -, -⟩ := upr_ok_fields hp
      obtain ⟨-, -, hua, -, -, -, -, -⟩ := uur_ok_fields hu
      have hsplit := sum_amount_split s.users i
      rcases hcase with ⟨-, -, rfl, -⟩ | ⟨-, rfl, -⟩ <;>
      · refine ⟨?_, ?_⟩
        · try dsimp only
          rw [sum_amount_update]
          try dsimp only
          omega
        · try dsimp only
          omega
  | ofUnstake ok clock i amount s =>
    rcases hres : unstake ok clock i amount s with ⟨r, log⟩
    rcases r with e | s2
    · exact ⟨hsum, hlt⟩
    · dsimp only [persist]
      obtain ⟨p1, u1, hp, hu, -, -, hamt, -, rfl, -⟩ := unstake_eq_ok hres
      obtain ⟨-, -, -, -, -, -, -, -, hpt, -, -⟩ := upr_ok_fields hp
      obtain ⟨-, -, hua, -, -, -, -, -⟩ := uur_ok_fields hu
      have hupd := sum_amount_update s.users i
        { u1 with amount_staked := u1.amount_staked - amount }
      dsimp only at hupd
      have hsplit := sum_amount_split s.users i
      have hle : amount ≤ s.pool.total_staked := by omega
      have hwrap : wrapSubU64 p1.total_staked amount
          = s.pool.total_staked - amount := by
        rw [hpt]
        exact wrapSubU64_of_le hle hlt
      refine ⟨?_, ?_⟩
      · try dsimp only
        rw [hwrap, hupd]
        omega
      · try dsimp only
        rw [hwrap]
        omega
  | ofSetParams caller clock apy lock s =>
    rcases hres : set_params caller clock apy lock s with ⟨r, log⟩
    rcases r with e | s2
    · exact ⟨hsum, hlt⟩
    · dsimp only [persist]
      obtain ⟨-, -, p1, hp, rfl, -⟩ := set_params_eq_ok hres
      obtain ⟨-, -, -, -, -, -, -, -, hpt, -, -⟩ := upr_ok_fields hp
      exact ⟨by dsimp only; omega, by dsimp only; omega⟩
  | ofSetTimeOffset caller off s =>
    rcases hres : set_time_offset caller off s with ⟨r, log⟩
    rcases r with e | s2
    · exact ⟨hsum, hlt⟩
    · dsimp only [persist]
      obtain ⟨-, rfl, -⟩ := set_time_offset_eq_ok hres
      exact ⟨hsum, hlt⟩


theorem reachable_inv {s : St k} (h : Reachable s) : Inv s := by
  induction h with
  | init clock admin mint vault bump apy lock vm vo p hinit =>
    obtain ⟨-, -, -, rfl⟩ := initialize_pool_eq_ok hinit
    constructor
    · show (0 : Nat) = _
      simp [initUsers]
    · show (0 : Nat) < U64
      simp [U64]
  | step hr hs ih => exact inv_step ih hs

/-! ### Claim theorems -/

/-- C1: in every state reachable by any sequence of `initialize_pool`,
`stake`, `claim`, `unstake`, `set_params` (and `set_time_offset`)
instructions on one pool, `pool.total_staked` equals the sum over all
participants of `user_stake.amount_staked`. -/
theorem C1_total_staked_eq_sum {s : St k} (h : Reachable s) :
    s.pool.total_staked = ∑ j, (s.users j).amount_staked :=
  (reachable_inv h).1

/-- A sample freshly initialised pool, used to instantiate theorems with
hypotheses at concrete inputs. -/
def pW : Pool :=
  { admin := 7, mint := 3, vault := 4, bump := 255, apy_bps := 1000,
    lockup_seconds := 60, acc_reward_per_token_fp := 0,
    rewards_owed_global_fp := 0, last_update_ts := 5,
    reward_rate_fp := 1000 * FP_ONE / 10000 / SECONDS_PER_YEAR,
    total_staked := 0, time_offset := 0 }

theorem C1_total_staked_eq_sum_witness :
    (⟨pW, initUsers 1⟩ : St 1).pool.total_staked
      = ∑ j, ((⟨pW, initUsers 1⟩ : St 1).users j).amount_staked :=
  C1_total_staked_eq_sum
    (Reachable.init 5 7 3 4 255 1000 60 true true pW rfl)

/-- C4: `pool.acc_reward_per_token_fp` is non-decreasing across every
instruction (`stake`, `claim`, `unstake`, `set_params`, `set_time_offset`)
from every pre-state, and `initialize_pool` creates it at zero (the value a
fresh Anchor-zeroed account already holds). -/
theorem C4_acc_monotone :
    (∀ {k : Nat} (s s' : St k), Step s s' →
      s.pool.acc_reward_per_token_fp ≤ s'.pool.acc_reward_per_token_fp) ∧
    (∀ (clock : Int) (admin mint vault bump apy lock : Nat) (vm vo : Bool)
      (p : Pool),
      initialize_pool clock admin mint vault bump apy lock vm vo = .ok p →
      p.acc_reward_per_token_fp = 0) := by
  constructor
  · intro k s s' hs
    cases hs with
    | ofStake ok clock i amount s =>
      rcases hres : stake ok clock i amount s with ⟨r, log⟩
      rcases r with e | s2
      · exact le_refl _
      · dsimp only [persist]
        obtain ⟨p1, u1, hp, hu, -, -, -, -, rfl, -⟩ := stake_eq_ok hres
        obtain ⟨-, -, -, -, -, -, -, -, -, -, hacc⟩ := upr_ok_fields hp
        exact hacc
    | ofClaim ok clock i s =>
      rcases hres : claim ok clock i s with ⟨r, log⟩
      rcases r with e | s2
      · exact le_refl _
      · dsimp only [persist]
        obtain ⟨p1, u1, hp, hu, hcase⟩ := claim_eq_ok hres
        obtain ⟨-, -, -, -, -, -, -, -, -, -, hacc⟩ := upr_ok_fields hp
        rcases hcase with ⟨-, -, rfl, -⟩ | ⟨-, rfl, -⟩ <;> exact hacc
    | ofUnstake ok clock i amount s =>
      rcases hres : unstake ok clock i amount s with ⟨r, log⟩
      rcases r with e | s2
      · exact le_refl _
      · dsimp only [persist]
        obtain ⟨p1, u1, hp, hu, -, -, -, -, rfl, -⟩ := unstake_eq_ok hres
        obtain ⟨-, -, -, -, -, -, -, -, -, -, hacc⟩ := upr_ok_fields hp
        exact hacc
    | ofSetParams caller clock apy lock s =>
      rcases hres : set_params caller clock apy lock s with ⟨r, log⟩
      rcases r with e | s2
      · exact le_refl _
      · dsimp only [persist]
        obtain ⟨-, -, p1, hp, rfl, -⟩ := set_params_eq_ok hres
        obtain ⟨-, -, -, -, -, -, -, -, -, -, hacc⟩ := upr_ok_fields hp
        exact hacc
    | ofSetTimeOffset caller off s =>
      rcases hres : set_time_offset caller off s with ⟨r, log⟩
      rcases r with e | s2
      · exact le_refl _
      · dsimp only [persist]
        obtain ⟨-, rfl, -⟩ := set_time_offset_eq_ok hres
        exact le_refl _
  · intro clock admin mint vault bump apy lock vm vo p h
    obtain ⟨-, -, -, rfl⟩ := initialize_pool_eq_ok h
    rfl

theorem C4_acc_monotone_witness :
    (⟨pW, initUsers 1⟩ : St 1).pool.acc_reward_per_token_fp ≤
      (persist ⟨pW, initUsers 1⟩
        (claim true 0 0 ⟨pW, initUsers 1⟩).1).pool.acc_reward_per_token_fp ∧
    pW.acc_reward_per_token_fp = 0 :=
  ⟨C4_acc_monotone.1 _ _ (Step.ofClaim true 0 0 ⟨pW, initUsers 1⟩),
   C4_acc_monotone.2 5 7 3 4 255 1000 60 true true pW rfl⟩

/-- `update_pool_rewards` with a non-advancing clock is a no-op. -/
theorem upr_noop {clock : Int} {p : Pool}
    (hle : satSubI64 (now_ts clock p) p.last_update_ts ≤ 0) :
    update_pool_rewards clock p = .ok p := by
  rw [update_pool_rewards]
  split
  · rfl
  next hc => exact absurd hle hc

/-- C5: `update_pool_rewards` is idempotent at a fixed timestamp — after one
successful settlement, running it again with the same `clock` changes no
field of the pool. -/
theorem C5_settle_pool_idempotent {clock : Int} {p p1 : Pool}
    (h : update_pool_rewards clock p = .ok p1) :
    update_pool_rewards clock p1 = .ok p1 := by
  rcases upr_ok_cases h with ⟨hle, rfl⟩ | ⟨hpos, hz, rfl⟩ | ⟨hpos, hz, hlt, rfl⟩
  · exact upr_noop hle
  · exact upr_noop (le_of_eq (satSubI64_self (now_ts clock p)))
  · exact upr_noop (le_of_eq (satSubI64_self (now_ts clock p)))

theorem C5_settle_pool_idempotent_witness :
    update_pool_rewards 10 { pW with last_update_ts := 10 }
      = .ok { pW with last_update_ts := 10 } :=
  C5_settle_pool_idempotent (p := pW) rfl

/-- C6: with an empty pool and elapsed time strictly positive, settlement
only advances `last_update_ts` to `now`; the accumulator and every other
field stay untouched, so the stakeless interval's reward is never accrued. -/
theorem C6_zero_stake_advances_clock_only {clock : Int} {p : Pool}
    (hz : p.total_staked = 0)
    (hdt : 0 < satSubI64 (now_ts clock p) p.last_update_ts) :
    update_pool_rewards clock p
      = .ok { p with last_update_ts := now_ts clock p } := by
  rw [update_pool_rewards]
  split
  next hc => omega
  next => rfl

theorem C6_zero_stake_advances_clock_only_witness :
    update_pool_rewards 10 pW = .ok { pW with last_update_ts := now_ts 10 pW } :=
  C6_zero_stake_advances_clock_only rfl (by decide)

/-- The multiply-then-divide increment of `update_pool_rewards`
(`added_fp / total_staked` with `added_fp = elapsed * rate * total_staked`). -/
def mulDivIncrement (elapsed rate total : Nat) : Nat :=
  elapsed * rate * total / total

/-- C3 (counterexample): the claimed unit-of-least-precision divergence does
not exist — there are no values of elapsed, rate and total (total nonzero,
neither product overflowing u128) at which the multiply-then-divide form
differs from the direct product `elapsed * rate`. -/
theorem C3_no_ulp_divergence :
    ¬ ∃ elapsed rate total : Nat, 0 < total ∧ total < U64 ∧
        elapsed * rate < U128 ∧ elapsed * rate * total < U128 ∧
        mulDivIncrement elapsed rate total ≠ elapsed * rate := by
  rintro ⟨e, r, t, ht, -, -, -, hne⟩
  exact hne (Nat.mul_div_cancel _ ht)

/-- C3 (amended): in exact integer arithmetic the multiply-then-divide form
`(elapsed * rate * total) / total` coincides with `elapsed * rate`
whenever `total` is nonzero; accordingly every successful
`update_pool_rewards` on a non-empty pool advances the accumulator by
exactly `elapsed * rate`. -/
theorem C3_mul_div_exact :
    (∀ elapsed rate total : Nat, 0 < total →
      mulDivIncrement elapsed rate total = elapsed * rate) ∧
    (∀ (clock : Int) (p p1 : Pool), p.total_staked ≠ 0 →
      update_pool_rewards clock p = .ok p1 →
      p1.acc_reward_per_token_fp = p.acc_reward_per_token_fp +
        (poolDt clock p).toNat * p.reward_rate_fp) := by
  constructor
  · intro e r t ht
    exact Nat.mul_div_cancel _ ht
  · intro clock p p1 hz h
    rcases upr_ok_cases h with ⟨hle, rfl⟩ | ⟨-, hz0, -⟩ | ⟨hpos, -, hlt, rfl⟩
    · rw [Int.toNat_of_nonpos hle]
      simp
    · exact absurd hz0 hz
    · dsimp only
      rw [Nat.mul_div_cancel _ (Nat.pos_of_ne_zero hz)]

theorem C3_mul_div_exact_witness :
    mulDivIncrement 6 7 3 = 6 * 7 ∧
    ({ pW with
        total_staked := 3,
        last_update_ts := 10,
        acc_reward_per_token_fp := 5 * pW.reward_rate_fp } : Pool).acc_reward_per_token_fp
      = ({ pW with total_staked := 3 } : Pool).acc_reward_per_token_fp +
        (poolDt 10 { pW with total_staked := 3 }).toNat
          * ({ pW with total_staked := 3 } : Pool).reward_rate_fp :=
  ⟨C3_mul_div_exact.1 6 7 3 (by decide),
   C3_mul_div_exact.2 10 { pW with total_staked := 3 }
     { pW with
        total_staked := 3,
        last_update_ts := 10,
        acc_reward_per_token_fp := 5 * pW.reward_rate_fp }
     (by decide) rfl⟩

/-- C9: the unchecked subtraction in `claim` cannot underflow — for every
value of `rewards_owed_fp`, the paid-back amount `tokens_owed * FP_ONE`
(with `tokens_owed` the truncating u64 cast of the floor division) never
exceeds `rewards_owed_fp`. -/
theorem C9_claim_no_underflow (owed_fp : Nat) :
    tokensOwedOf owed_fp * FP_ONE ≤ owed_fp :=
  le_trans (Nat.mul_le_mul_right _ (Nat.mod_le _ _)) (Nat.div_mul_le_self _ _)

/-! ### Claim payout accounting (claims C2, C10) -/

theorem tokensOwed_le {x : Nat} : tokensOwedOf x * FP_ONE ≤ x :=
  le_trans (Nat.mul_le_mul_right _ (Nat.mod_le _ _)) (Nat.div_mul_le_self _ _)

/-- Within u128 range the truncating cast is the identity, so `tokens_owed`
is the exact floor division. -/
theorem tokensOwedOf_eq {x : Nat} (hx : x < U128) :
    tokensOwedOf x = x / FP_ONE := by
  rw [tokensOwedOf]
  apply Nat.mod_eq_of_lt
  apply (Nat.div_lt_iff_lt_mul (by norm_num [FP_ONE])).mpr
  calc x < U128 := hx
    _ = U64 * FP_ONE := by norm_num [U128, U64, FP_ONE, FP_SHIFT]

/-- One successful `claim` pays out exactly the floor of the settled owed
balance and retains exactly the remainder. -/
theorem claim_ok_paid {xferOk : Bool} {clock : Int} {i : Fin k} {s s' : St k}
    {log : List Xfer} (h : claim xferOk clock i s = (.ok s', log)) :
    logAmount log
      = ((s.users i).rewards_owed_fp +
          (s.users i).amount_staked *
            (s'.pool.acc_reward_per_token_fp -
              (s.users i).user_entry_acc_rpt_fp)) / FP_ONE ∧
    (s'.users i).rewards_owed_fp
      = ((s.users i).rewards_owed_fp +
          (s.users i).amount_staked *
            (s'.pool.acc_reward_per_token_fp -
              (s.users i).user_entry_acc_rpt_fp))
        - logAmount log * FP_ONE := by
  obtain ⟨p1, u1, hp, hu, hcase⟩ := claim_eq_ok h
  obtain ⟨-, -, -, -, -, hle, howed, hlt⟩ := uur_ok_fields hu
  rcases hcase with ⟨hpos, -, rfl, rfl⟩ | ⟨hzero, rfl, rfl⟩
  · try dsimp only
    simp only [Function.update_same]
    try dsimp only
    rw [← howed]
    simp only [logAmount, List.map, List.sum_cons, List.sum_nil, Nat.add_zero]
    constructor
    · exact tokensOwedOf_eq hlt
    · exact wrapSubU128_of_le tokensOwed_le hlt
  · try dsimp only
    simp only [Function.update_same]
    rw [← howed]
    simp only [logAmount, List.map, List.sum_nil, Nat.zero_mul, Nat.sub_zero]
    refine ⟨?_, trivial⟩
    rw [← tokensOwedOf_eq hlt]
    exact hzero.symm

/-- Run a sequence of `claim` instructions (one per clock value) for one
participant, accumulating the total integer payout and the total fixed-point
reward credited by the successful settlements (a failed claim persists
nothing and pays nothing). -/
def runClaims (xferOk : Bool) (i : Fin k) : List Int → St k → St k × Nat × Nat
  | [], s => (s, 0, 0)
  | clock :: rest, s =>
    match claim xferOk clock i s with
    | (.ok s1, log) =>
      ((runClaims xferOk i rest s1).1,
       logAmount log + (runClaims xferOk i rest s1).2.1,
       (s.users i).amount_staked *
           (s1.pool.acc_reward_per_token_fp - (s.users i).user_entry_acc_rpt_fp)
         + (runClaims xferOk i rest s1).2.2)
    | (.error _, _) => runClaims xferOk i rest s

/-- C2: a successful `claim` pays out exactly
`tokens_owed = floor(rewards_owed / SCALE)` and reduces `rewards_owed` by
exactly `tokens_owed * SCALE`; consequently over any sequence of claims the
integer payouts times `SCALE` plus the remaining `rewards_owed` equal the
initial `rewards_owed` plus the total fixed-point reward credited. -/
theorem C2_claim_round_trip (xferOk : Bool) (i : Fin k) (L : List Int)
    (s : St k) :
    (∀ (clock : Int) (s' : St k) (log : List Xfer),
      claim xferOk clock i s = (.ok s', log) →
      logAmount log
        = ((s.users i).rewards_owed_fp +
            (s.users i).amount_staked *
              (s'.pool.acc_reward_per_token_fp -
                (s.users i).user_entry_acc_rpt_fp)) / FP_ONE ∧
      (s'.users i).rewards_owed_fp
        = ((s.users i).rewards_owed_fp +
            (s.users i).amount_staked *
              (s'.pool.acc_reward_per_token_fp -
                (s.users i).user_entry_acc_rpt_fp))
          - logAmount log * FP_ONE) ∧
    (runClaims xferOk i L s).2.1 * FP_ONE
        + ((runClaims xferOk i L s).1.users i).rewards_owed_fp
      = (s.users i).rewards_owed_fp + (runClaims xferOk i L s).2.2 := by
  constructor
  · intro clock s' log h
    exact claim_ok_paid h
  · induction L generalizing s with
    | nil => simp [runClaims]
    | cons clock rest ih =>
      rw [runClaims]
      rcases hc : claim xferOk clock i s with ⟨r, log⟩
      rcases r with e | s1
      · exact ih s
      · have hstep := claim_ok_paid hc
        have hle : logAmount log * FP_ONE ≤
            (s.users i).rewards_owed_fp +
              (s.users i).amount_staked *
                (s1.pool.acc_reward_per_token_fp -
                  (s.users i).user_entry_acc_rpt_fp) := by
          rw [hstep.1]
          exact Nat.div_mul_le_self _ _
        have ihs := ih s1
        dsimp only
        rw [Nat.add_mul]
        omega

/-! ### Lockup gate (claim C7) -/

theorem clampI64_eq_self {x : Int} (h1 : I64_MIN ≤ x) (h2 : x ≤ I64_MAX) :
    clampI64 x = x := by
  rw [clampI64, min_eq_right h2, max_eq_right h1]

/-- C7: with `lockup_seconds = L > 0` (a u32 value) and a valid amount, an
unstake at `now = stake_ts + L - 1` fails with the Lockup error before any
settlement or transfer, while the same unstake at `now = stake_ts + L`
passes the gate and succeeds when settlement and transfer go through. -/
theorem C7_lockup_gate :
    (∀ {k : Nat} (s : St k) (xferOk : Bool) (clock : Int) (i : Fin k)
        (amount L : Nat),
      0 < L → L < 2 ^ 32 → s.pool.lockup_seconds = L → amount ≠ 0 →
      now_ts clock s.pool = (s.users i).stake_ts + (L : Int) - 1 →
      unstake xferOk clock i amount s = (.error (.program .lockup), [])) ∧
    (∀ {k : Nat} (s : St k) (clock : Int) (i : Fin k) (amount L : Nat)
        (p1 : Pool) (u1 : UserStake),
      0 < L → L < 2 ^ 32 → s.pool.lockup_seconds = L → amount ≠ 0 →
      now_ts clock s.pool = (s.users i).stake_ts + (L : Int) →
      update_pool_rewards clock s.pool = .ok p1 →
      update_user_rewards (s.users i) p1 = .ok u1 →
      amount ≤ u1.amount_staked →
      unstake true clock i amount s
        = (.ok ⟨{ p1 with total_staked := wrapSubU64 p1.total_staked amount },
                Function.update s.users i
                  { u1 with amount_staked := u1.amount_staked - amount }⟩,
           [⟨.toUser, amount⟩])) := by
  constructor
  · intro k s xferOk clock i amount L hL hL32 hlock ham hnow
    have hsat : satSubI64 (now_ts clock s.pool) (s.users i).stake_ts
        = (L : Int) - 1 := by
      rw [hnow, satSubI64]
      have he : (s.users i).stake_ts + (L : Int) - 1 - (s.users i).stake_ts
          = (L : Int) - 1 := by ring
      rw [he]
      apply clampI64_eq_self
      · rw [I64_MIN]; omega
      · rw [I64_MAX]; push_cast; omega
    rw [unstake, if_neg ham, if_pos ?hcond]
    case hcond =>
      refine ⟨by omega, ?_⟩
      rw [hsat, hlock]
      omega
  · intro k s clock i amount L p1 u1 hL hL32 hlock ham hnow hp hu hins
    have hsat : satSubI64 (now_ts clock s.pool) (s.users i).stake_ts
        = (L : Int) := by
      rw [hnow, satSubI64]
      have he : (s.users i).stake_ts + (L : Int) - (s.users i).stake_ts
          = (L : Int) := by ring
      rw [he]
      apply clampI64_eq_self
      · rw [I64_MIN]; omega
      · rw [I64_MAX]; push_cast; omega
    rw [unstake, if_neg ham, if_neg ?hcond]
    case hcond =>
      rintro ⟨-, hcon⟩
      rw [hsat, hlock] at hcon
      omega
    simp only [hp, hu]
    rw [if_neg (not_lt.mpr hins), if_pos trivial]

/-- C10: a successful `claim` is frame-preserving on stake balances — the
participant's `amount_staked` and `stake_ts` (and identity fields), the
other participants' records, and every pool field other than the
accumulator and `last_update_ts` are unchanged. -/
theorem C10_claim_frame {xferOk : Bool} {clock : Int} {i : Fin k}
    {s s' : St k} {log : List Xfer}
    (h : claim xferOk clock i s = (.ok s', log)) :
    (s'.users i).amount_staked = (s.users i).amount_staked ∧
    (s'.users i).stake_ts = (s.users i).stake_ts ∧
    (s'.users i).owner = (s.users i).owner ∧
    (s'.users i).pool = (s.users i).pool ∧
    (∀ j, j ≠ i → s'.users j = s.users j) ∧
    s'.pool.total_staked = s.pool.total_staked ∧
    s'.pool.admin = s.pool.admin ∧
    s'.pool.mint = s.pool.mint ∧
    s'.pool.vault = s.pool.vault ∧
    s'.pool.bump = s.pool.bump ∧
    s'.pool.apy_bps = s.pool.apy_bps ∧
    s'.pool.lockup_seconds = s.pool.lockup_seconds ∧
    s'.pool.rewards_owed_global_fp = s.pool.rewards_owed_global_fp ∧
    s'.pool.reward_rate_fp = s.pool.reward_rate_fp ∧
    s'.pool.time_offset = s.pool.time_offset := by
  obtain ⟨p1, u1, hp, hu, hcase⟩ := claim_eq_ok h
  obtain ⟨had, hmi, hva, hbu, hap, hlo, hgl, hra, hto, hof, -⟩ := upr_ok_fields hp
  obtain ⟨huo, hupo, hua, hust, -, -, -, -⟩ := uur_ok_fields hu
  rcases hcase with ⟨-, -, rfl, -⟩ | ⟨-, rfl, -⟩ <;>
  · try dsimp only
    simp only [Function.update_same]
    refine ⟨hua, hust, huo, hupo, ?_, hto, had, hmi, hva, hbu, hap, hlo, hgl,
      hra, hof⟩
    intro j hj
    exact Function.update_noteq hj _ _

/-- C8: every failing instruction persists nothing (the transaction aborts
with the pre-state intact), and when a settlement step fails, the failure
happens before any Transfer Gateway invocation — the transfer log is empty. -/
theorem C8_atomic_failure :
    (∀ {k : Nat} (s : St k) (xferOk : Bool) (clock : Int) (i : Fin k)
        (amount : Nat) (e : Err) (log : List Xfer),
      stake xferOk clock i amount s = (.error e, log) →
      persist s (stake xferOk clock i amount s).1 = s) ∧
    (∀ {k : Nat} (s : St k) (xferOk : Bool) (clock : Int) (i : Fin k)
        (e : Err) (log : List Xfer),
      claim xferOk clock i s = (.error e, log) →
      persist s (claim xferOk clock i s).1 = s) ∧
    (∀ {k : Nat} (s : St k) (xferOk : Bool) (clock : Int) (i : Fin k)
        (amount : Nat) (e : Err) (log : List Xfer),
      unstake xferOk clock i amount s = (.error e, log) →
      persist s (unstake xferOk clock i amount s).1 = s) ∧
    (∀ {k : Nat} (s : St k) (caller : Nat) (clock : Int) (apy lock : Nat)
        (e : Err) (log : List Xfer),
      set_params caller clock apy lock s = (.error e, log) →
      persist s (set_params caller clock apy lock s).1 = s) ∧
    (∀ {k : Nat} (s : St k) (xferOk : Bool) (clock : Int) (i : Fin k)
        (amount : Nat) (e : Err),
      amount ≠ 0 →
      update_pool_rewards clock s.pool = .error e →
      stake xferOk clock i amount s = (.error e, [])) ∧
    (∀ {k : Nat} (s : St k) (xferOk : Bool) (clock : Int) (i : Fin k)
        (amount : Nat) (p1 : Pool) (e : Err),
      amount ≠ 0 →
      update_pool_rewards clock s.pool = .ok p1 →
      update_user_rewards (s.users i) p1 = .error e →
      stake xferOk clock i amount s = (.error e, [])) ∧
    (∀ {k : Nat} (s : St k) (xferOk : Bool) (clock : Int) (i : Fin k)
        (e : Err),
      update_pool_rewards clock s.pool = .error e →
      claim xferOk clock i s = (.error e, [])) ∧
    (∀ {k : Nat} (s : St k) (xferOk : Bool) (clock : Int) (i : Fin k)
        (p1 : Pool) (e : Err),
      update_pool_rewards clock s.pool = .ok p1 →
      update_user_rewards (s.users i) p1 = .error e →
      claim xferOk clock i s = (.error e, [])) ∧
    (∀ {k : Nat} (s : St k) (xferOk : Bool) (clock : Int) (i : Fin k)
        (amount : Nat) (e : Err),
      amount ≠ 0 →
      ¬(0 < s.pool.lockup_seconds ∧
        satSubI64 (now_ts clock s.pool) (s.users i).stake_ts
          < (s.pool.lockup_seconds : Int)) →
      update_pool_rewards clock s.pool = .error e →
      unstake xferOk clock i amount s = (.error e, [])) ∧
    (∀ {k : Nat} (s : St k) (xferOk : Bool) (clock : Int) (i : Fin k)
        (amount : Nat) (p1 : Pool) (e : Err),
      amount ≠ 0 →
      ¬(0 < s.pool.lockup_seconds ∧
        satSubI64 (now_ts clock s.pool) (s.users i).stake_ts
          < (s.pool.lockup_seconds : Int)) →
      update_pool_rewards clock s.pool = .ok p1 →
      update_user_rewards (s.users i) p1 = .error e →
      unstake xferOk clock i amount s = (.error e, [])) ∧
    (∀ {k : Nat} (s : St k) (caller : Nat) (clock : Int) (apy lock : Nat)
        (e : Err),
      caller = s.pool.admin → apy ≤ 10000 →
      update_pool_rewards clock s.pool = .error e →
      set_params caller clock apy lock s = (.error e, [])) := by
  refine ⟨?_, ?_, ?_, ?_, ?_, ?_, ?_, ?_, ?_, ?_, ?_⟩
  · intro k s xferOk clock i amount e log h
    rw [h]
    rfl
  · intro k s xferOk clock i e log h
    rw [h]
    rfl
  · intro k s xferOk clock i amount e log h
    rw [h]
    rfl
  · intro k s caller clock apy lock e log h
    rw [h]
    rfl
  · intro k s xferOk clock i amount e ham hp
    rw [stake, if_neg ham]
    simp only [hp]
  · intro k s xferOk clock i amount p1 e ham hp hu
    rw [stake, if_neg ham]
    simp only [hp, hu]
  · intro k s xferOk clock i e hp
    rw [claim]
    simp only [hp]
  · intro k s xferOk clock i p1 e hp hu
    rw [claim]
    simp only [hp, hu]
  · intro k s xferOk clock i amount e ham hlock hp
    rw [unstake, if_neg ham, if_neg hlock]
    simp only [hp]
  · intro k s xferOk clock i amount p1 e ham hlock hp hu
    rw [unstake, if_neg ham, if_neg hlock]
    simp only [hp, hu]
  · intro k s caller clock apy lock e hcaller hapy hp
    rw [set_params, if_neg (by simp [hcaller]), if_neg (not_lt.mpr hapy)]
    simp only [hp]

/-! ### Concrete sample states for witnesses -/

/-- A quiescent pool (zero rate, empty, clock at 0). -/
def pZ : Pool := ⟨7, 3, 4, 255, 1000, 0, 0, 0, 0, 0, 0, 0⟩

/-- A participant owed `3 * FP_ONE + 7` fixed-point units. -/
def uZ : UserStake := ⟨0, 0, 0, 3 * FP_ONE + 7, 0, 0⟩

def sZ : St 1 := ⟨pZ, fun _ => uZ⟩

/-- The state after `claim` pays 3 tokens out of `sZ`. -/
def sZ' : St 1 := ⟨pZ, Function.update sZ.users 0 { uZ with rewards_owed_fp := 7 }⟩

/-- A state whose participant snapshot is ahead of the pool accumulator, so
participant settlement fails with Underflow. -/
def sU : St 1 := ⟨pZ, fun _ => ⟨0, 0, 0, 0, 1, 0⟩⟩

/-- A pool with a 10-second lockup whose participant staked at t = 0. -/
def pL : Pool := ⟨7, 3, 4, 255, 1000, 10, 0, 0, 10, 0, 5, 0⟩

def uL : UserStake := ⟨0, 0, 5, 0, 0, 0⟩

def sL : St 1 := ⟨pL, fun _ => uL⟩

theorem C2_claim_round_trip_witness :
    (logAmount [⟨Dir.toUser, 3⟩]
        = ((sZ.users 0).rewards_owed_fp +
            (sZ.users 0).amount_staked *
              (sZ'.pool.acc_reward_per_token_fp -
                (sZ.users 0).user_entry_acc_rpt_fp)) / FP_ONE ∧
      (sZ'.users 0).rewards_owed_fp
        = ((sZ.users 0).rewards_owed_fp +
            (sZ.users 0).amount_staked *
              (sZ'.pool.acc_reward_per_token_fp -
                (sZ.users 0).user_entry_acc_rpt_fp))
          - logAmount [⟨Dir.toUser, 3⟩] * FP_ONE) ∧
    (runClaims true (0 : Fin 1) [0] sZ).2.1 * FP_ONE
        + ((runClaims true (0 : Fin 1) [0] sZ).1.users 0).rewards_owed_fp
      = (sZ.users 0).rewards_owed_fp + (runClaims true (0 : Fin 1) [0] sZ).2.2 :=
  ⟨(C2_claim_round_trip true 0 [0] sZ).1 0 sZ' [⟨.toUser, 3⟩] rfl,
   (C2_claim_round_trip true 0 [0] sZ).2⟩

theorem C7_lockup_gate_witness :
    unstake true 9 (0 : Fin 1) 5 sL = (.error (.program .lockup), []) ∧
    unstake true 10 (0 : Fin 1) 5 sL
      = (.ok ⟨{ pL with total_staked := wrapSubU64 pL.total_staked 5 },
              Function.update sL.users 0
                { uL with amount_staked := uL.amount_staked - 5 }⟩,
         [⟨.toUser, 5⟩]) :=
  ⟨C7_lockup_gate.1 sL true 9 0 5 10 (by decide) (by decide) rfl (by decide)
     (by decide),
   C7_lockup_gate.2 sL 10 0 5 10 pL uL (by decide) (by decide) rfl (by decide)
     (by decide) rfl rfl (by decide)⟩

theorem C8_atomic_failure_witness :
    claim true 0 (0 : Fin 1) sU = (.error (.program .underflow), []) ∧
    persist sU (claim true 0 (0 : Fin 1) sU).1 = sU :=
  ⟨C8_atomic_failure.2.2.2.2.2.2.2.1 sU true 0 0 pZ (.program .underflow)
     rfl rfl,
   C8_atomic_failure.2.1 sU true 0 0 (.program .underflow) [] rfl⟩

theorem C10_claim_frame_witness :
    (sZ'.users 0).amount_staked = (sZ.users 0).amount_staked ∧
    (sZ'.users 0).stake_ts = (sZ.users 0).stake_ts ∧
    (sZ'.users 0).owner = (sZ.users 0).owner ∧
    (sZ'.users 0).pool = (sZ.users 0).pool ∧
    (∀ j, j ≠ (0 : Fin 1) → sZ'.users j = sZ.users j) ∧
    sZ'.pool.total_staked = sZ.pool.total_staked ∧
    sZ'.pool.admin = sZ.pool.admin ∧
    sZ'.pool.mint = sZ.pool.mint ∧
    sZ'.pool.vault = sZ.pool.vault ∧
    sZ'.pool.bump = sZ.pool.bump ∧
    sZ'.pool.apy_bps = sZ.pool.apy_bps ∧
    sZ'.pool.lockup_seconds = sZ.pool.lockup_seconds ∧
    sZ'.pool.rewards_owed_global_fp = sZ.pool.rewards_owed_global_fp ∧
    sZ'.pool.reward_rate_fp = sZ.pool.reward_rate_fp ∧
    sZ'.pool.time_offset = sZ.pool.time_offset :=
  C10_claim_frame
    (show claim true 0 (0 : Fin 1) sZ = (.ok sZ', [⟨Dir.toUser, 3⟩]) from rfl)

end AbcStaking
